import Mathlib

/-!
Verification of the mesh-processing core of Morphoviewer (src/mesh_tools.js).

The JavaScript source operates on plain arrays of numbers; we embed it
shallowly over the real numbers: a point or vector is a `Vec3` of reals,
a triangle is a triple of natural-number indices, and the fallible index
accesses of the source (which crash in JavaScript when an index is out of
range, since `v[i]` is `undefined` and a subsequent member access throws)
are modelled with `Option`: `none` models the crash.

The vector and 2x2-matrix primitives (`vec3`, `vec2`, `mat2` of glMatrix)
are transcribed with their exact semantics: `normalize` leaves the vector
unchanged when its squared length is not positive, and `mat2.invert`
leaves the matrix unchanged when the determinant is zero (glMatrix
returns `null` without writing to `out`, and `mesh_tools.js` ignores the
return value, so the un-inverted matrix is used).
-/

namespace Morphoviewer

noncomputable section

/-- A 3-component vector of reals: one JavaScript point/normal triplet. -/
structure Vec3 where
  x : ℝ
  y : ℝ
  z : ℝ

/-- Componentwise subtraction, `vec3` style. -/
def Vec3.sub (a b : Vec3) : Vec3 :=
  ⟨a.x - b.x, a.y - b.y, a.z - b.z⟩

/-- Componentwise addition (glMatrix `vec3.add`). -/
def Vec3.add (a b : Vec3) : Vec3 :=
  ⟨a.x + b.x, a.y + b.y, a.z + b.z⟩

/-- Cross product (glMatrix `vec3.cross`). -/
def Vec3.cross (a b : Vec3) : Vec3 :=
  ⟨a.y * b.z - a.z * b.y, a.z * b.x - a.x * b.z, a.x * b.y - a.y * b.x⟩

/-- Dot product (glMatrix `vec3.dot`). -/
def Vec3.dot (a b : Vec3) : ℝ :=
  a.x * b.x + a.y * b.y + a.z * b.z

/-- glMatrix `vec3.normalize(n, n)`: when the squared length is positive
the vector is scaled by the reciprocal square root of its squared length;
otherwise `out` (aliased to the input in every call in `mesh_tools.js`)
is left unchanged. -/
def Vec3.normalize (a : Vec3) : Vec3 :=
  if 0 < Vec3.dot a a then
    ⟨a.x * (1 / Real.sqrt (Vec3.dot a a)),
     a.y * (1 / Real.sqrt (Vec3.dot a a)),
     a.z * (1 / Real.sqrt (Vec3.dot a a))⟩
  else a

/-- The zero vector, `vec3.fromValues(0.0, 0.0, 0.0)`. -/
def Vec3.zero : Vec3 := ⟨0, 0, 0⟩

/-- A triangle: three indices into a point list (`ind[i]` in the source). -/
structure Tri where
  a : ℕ
  b : ℕ
  c : ℕ

/-- `centerOfVolume` of mesh_tools.js: per-axis sums of the coordinates,
each divided by the number of points (division by zero for an empty list
models the NaN of the source as the junk value `0 / 0 = 0` of `ℝ`). -/
def centerOfVolume (points : List Vec3) : Vec3 :=
  ⟨(points.map Vec3.x).sum / (points.length : ℝ),
   (points.map Vec3.y).sum / (points.length : ℝ),
   (points.map Vec3.z).sum / (points.length : ℝ)⟩

/-- `centerPointCloud` of mesh_tools.js: subtract the center of volume
from every point. The source mutates the caller's array in place; the
embedding returns the mutated array. -/
def centerPointCloud (points : List Vec3) : List Vec3 :=
  points.map (fun p => Vec3.sub p (centerOfVolume points))

/-- The three coordinates of a point, in the order the source pushes them. -/
def flat3 (p : Vec3) : List ℝ := [p.x, p.y, p.z]

/-- `unwrapVectorArray` of mesh_tools.js: for each triangle in order, push
the three coordinates of the point at each of its three indices. The
source dereferences `v[inds[i][k]][0..2]`, which throws in JavaScript
when an index is out of range (the guarding bounds check in the source is
commented out); `none` models that crash. -/
def unwrapVectorArray (v : List Vec3) (inds : List Tri) : Option (List ℝ) :=
  match inds with
  | [] => some []
  | t :: rest => do
    let p0 ← v[t.a]?
    let p1 ← v[t.b]?
    let p2 ← v[t.c]?
    let more ← unwrapVectorArray v rest
    pure (flat3 p0 ++ flat3 p1 ++ flat3 p2 ++ more)

/-- `unwrapArray` of mesh_tools.js: for each triangle in order, push the
array's value at each of the triangle's three indices. An out-of-range
index makes the source push the JavaScript value `undefined` (no member
access happens, so there is no crash); the pushed cell is modelled as an
`Option α`, `none` standing for `undefined`. -/
def unwrapArray {α : Type} (v : List α) (inds : List Tri) : List (Option α) :=
  match inds with
  | [] => []
  | t :: rest => v[t.a]? :: v[t.b]? :: v[t.c]? :: unwrapArray v rest

/-- Least element of a list of reals. The source folds `min` starting
from `Number.POSITIVE_INFINITY`, so after scanning a non-empty list the
accumulator holds exactly the least element, which this computes directly;
for the empty list the source would return `+∞`, modelled here by the
junk value `0` (no claim touches that case). -/
def listMin : List ℝ → ℝ
  | [] => 0
  | [a] => a
  | a :: rest => min a (listMin rest)

/-- Greatest element of a list of reals; the `Number.NEGATIVE_INFINITY`
fold of the source, see `listMin`. -/
def listMax : List ℝ → ℝ
  | [] => 0
  | [a] => a
  | a :: rest => max a (listMax rest)

/-- The record returned by `getAabb`. -/
structure Aabb where
  min : Vec3
  max : Vec3
  center : Vec3
  length : ℝ

/-- `getAabb` of mesh_tools.js. The `center` components transcribe the
source verbatim: `xmin+xmax / 2.0` with no parentheses, so JavaScript
operator precedence makes it `xmin + (xmax / 2)`. -/
def getAabb (verts : List Vec3) : Aabb :=
  let xmin := listMin (verts.map Vec3.x)
  let xmax := listMax (verts.map Vec3.x)
  let ymin := listMin (verts.map Vec3.y)
  let ymax := listMax (verts.map Vec3.y)
  let zmin := listMin (verts.map Vec3.z)
  let zmax := listMax (verts.map Vec3.z)
  let sqrDist := (xmax - xmin) * (xmax - xmin) + (ymax - ymin) * (ymax - ymin) +
    (zmax - zmin) * (zmax - zmin)
  { min := ⟨xmin, ymin, zmin⟩
    max := ⟨xmax, ymax, zmax⟩
    center := ⟨xmin + xmax / 2, ymin + ymax / 2, zmin + zmax / 2⟩
    length := Real.sqrt sqrDist }

/-- The normal the `faceNormals` loop body computes for one triangle:
`normalize((P[b] - P[a]) x (P[c] - P[a]))` (in-range accesses written
with `getD`; the fallible accesses live in `faceNormalsStep`). -/
def faceNormalOf (verts : List Vec3) (t : Tri) : Vec3 :=
  Vec3.normalize (Vec3.cross
    (Vec3.sub (verts.getD t.b Vec3.zero) (verts.getD t.a Vec3.zero))
    (Vec3.sub (verts.getD t.c Vec3.zero) (verts.getD t.a Vec3.zero)))

/-- The raw (unnormalized) cross product the `faceVectors` loop body
computes for one triangle. -/
def faceVectorOf (verts : List Vec3) (t : Tri) : Vec3 :=
  Vec3.cross
    (Vec3.sub (verts.getD t.b Vec3.zero) (verts.getD t.a Vec3.zero))
    (Vec3.sub (verts.getD t.c Vec3.zero) (verts.getD t.a Vec3.zero))

/-- One iteration of the `faceNormals` loop of mesh_tools.js: read the
triangle's three points (a crash on an out-of-range index is `none`),
form the two edge vectors, cross them, normalize, and write the result
to the output slots of all three vertices of the triangle. -/
def faceNormalsStep (verts : List Vec3) (norms : List (Option Vec3))
    (t : Tri) : Option (List (Option Vec3)) := do
  let pa ← verts[t.a]?
  let pb ← verts[t.b]?
  let pc ← verts[t.c]?
  let n := Vec3.normalize (Vec3.cross (Vec3.sub pb pa) (Vec3.sub pc pa))
  pure (((norms.set t.a (some n)).set t.b (some n)).set t.c (some n))

/-- `faceNormals` of mesh_tools.js: `new Array(verts.length)` (all cells
undefined, i.e. `none`) folded through the per-triangle scatter. -/
def faceNormals (verts : List Vec3) (ind : List Tri) :
    Option (List (Option Vec3)) :=
  ind.foldlM (faceNormalsStep verts) (List.replicate verts.length none)

/-- One iteration of the `faceVectors` loop: identical to
`faceNormalsStep` except that the cross product is not normalized (the
source comment: "Pretty much the same, except for the lack of
normalization"). -/
def faceVectorsStep (verts : List Vec3) (norms : List (Option Vec3))
    (t : Tri) : Option (List (Option Vec3)) := do
  let pa ← verts[t.a]?
  let pb ← verts[t.b]?
  let pc ← verts[t.c]?
  let n := Vec3.cross (Vec3.sub pb pa) (Vec3.sub pc pa)
  pure (((norms.set t.a (some n)).set t.b (some n)).set t.c (some n))

/-- `faceVectors` of mesh_tools.js (the private, unnormalized variant);
like `faceNormals`, its output array is sized to the point list and
keyed by point index. -/
def faceVectors (verts : List Vec3) (ind : List Tri) :
    Option (List (Option Vec3)) :=
  ind.foldlM (faceVectorsStep verts) (List.replicate verts.length none)

/-- One iteration of the adjacency-construction loop of `vertexNormals`
in mesh_tools.js: push (b, c) onto adjacency[a], then (a, c) onto
adjacency[b], then (a, b) onto adjacency[c], sequentially, so repeated
indices within one triangle observe the earlier pushes. An out-of-range
index is a crash (`adjacency[i]` is `undefined` and `.push` throws),
modelled as `none`. -/
def adjacencyStep (adj : List (List ℕ)) (t : Tri) :
    Option (List (List ℕ)) := do
  let la ← adj[t.a]?
  let adj1 := adj.set t.a (la ++ [t.b, t.c])
  let lb ← adj1[t.b]?
  let adj2 := adj1.set t.b (lb ++ [t.a, t.c])
  let lc ← adj2[t.c]?
  pure (adj2.set t.c (lc ++ [t.a, t.b]))

/-- The adjacency-list construction of `vertexNormals`: an array of
`verts.length` empty lists folded through the per-triangle pushes. -/
def buildAdjacency (n : ℕ) (ind : List Tri) : Option (List (List ℕ)) :=
  ind.foldlM adjacencyStep (List.replicate n [])

/-- The inner summation loop of `vertexNormals`: add up the face-vector
cells at the adjacency entries. An out-of-range entry, or an entry whose
cell was never written (JavaScript `undefined`), crashes: `none`. -/
def sumFaceVecs (fv : List (Option Vec3)) : List ℕ → Vec3 → Option Vec3
  | [], acc => some acc
  | e :: rest, acc => do
    let cell ← fv[e]?
    let w ← cell
    sumFaceVecs fv rest (Vec3.add acc w)

/-- `vertexNormals` of mesh_tools.js: build the adjacency list, compute
the unnormalized face vectors (point-keyed, see `faceVectors`), then for
each vertex normalize the sum of the face-vector cells at its adjacency
entries. -/
def vertexNormals (verts : List Vec3) (ind : List Tri) :
    Option (List Vec3) := do
  let adj ← buildAdjacency verts.length ind
  let fv ← faceVectors verts ind
  (List.range verts.length).mapM (fun i => do
    let entries ← adj[i]?
    let s ← sumFaceVecs fv entries Vec3.zero
    pure (Vec3.normalize s))

/-- The adjacency entries one triangle contributes to vertex `i`,
following the spec's step 1 (a is adjacent to b and c; b to a and c;
c to a and b), in the push order of the source. -/
def adjContrib (t : Tri) (i : ℕ) : List ℕ :=
  (if i = t.a then [t.b, t.c] else []) ++
  (if i = t.b then [t.a, t.c] else []) ++
  (if i = t.c then [t.a, t.b] else [])

/-- The full adjacency entry list of vertex `i`: the concatenation of
the per-triangle contributions in iteration order. -/
def adjSpec (ind : List Tri) (i : ℕ) : List ℕ :=
  ind.flatMap (fun t => adjContrib t i)

/-- How many vertex slots of the triangle list hold index `i` (for
triangles with three distinct vertices this is the number of incident
triangles). -/
def slotCount (ind : List Tri) (i : ℕ) : ℕ :=
  (ind.map (fun t => (if i = t.a then 1 else 0) + (if i = t.b then 1 else 0) +
    (if i = t.c then 1 else 0))).sum

/-- The face-vector array as claim C3 describes it: keyed by
triangle-vertex-slot index, entries 3i, 3i+1, 3i+2 holding the raw cross
product of triangle i. This follows the claim's words, for comparison
with the point-keyed `faceVectors` of the source. -/
def slotFaceVectors (verts : List Vec3) (ind : List Tri) : List Vec3 :=
  ind.flatMap (fun t =>
    [faceVectorOf verts t, faceVectorOf verts t, faceVectorOf verts t])

/-- The summation loop over a slot-keyed (fully populated) face-vector
array; an out-of-range entry is `none`. -/
def sumVecs (fv : List Vec3) : List ℕ → Vec3 → Option Vec3
  | [], acc => some acc
  | e :: rest, acc => do
    let w ← fv[e]?
    sumVecs fv rest (Vec3.add acc w)

/-- `vertexNormals` as claim C3 states it: the same adjacency list, but
with the adjacency entries indexing into the slot-keyed face-vector
array instead of the point-keyed one. -/
def vertexNormalsSlotKeyed (verts : List Vec3) (ind : List Tri) :
    Option (List Vec3) := do
  let adj ← buildAdjacency verts.length ind
  (List.range verts.length).mapM (fun i => do
    let entries ← adj[i]?
    let s ← sumVecs (slotFaceVectors verts ind) entries Vec3.zero
    pure (Vec3.normalize s))

/-- JavaScript `Math.atan2(y, x)` modelled by the complex argument of
`x + y*i`, which lies in (-pi, pi] and agrees with atan2 over the reals
(ℝ has no signed zeros; atan2(0, 0) = 0 = arg 0). -/
def atan2 (y x : ℝ) : ℝ := Complex.arg ⟨x, y⟩

/-- glMatrix `vec2.normalize(vec2.create(), v)`: `out` starts as (0, 0)
and is written only when the squared length is positive, so the zero
vector stays (0, 0). -/
def vec2normalize (x y : ℝ) : ℝ × ℝ :=
  if 0 < x * x + y * y then
    (x * (1 / Real.sqrt (x * x + y * y)), y * (1 / Real.sqrt (x * x + y * y)))
  else (0, 0)

/-- `angleRangeClamp` of mesh_tools.js. -/
def angleRangeClamp (angle : ℝ) : ℝ :=
  if angle > Real.pi * 2 then angle - Real.pi * 2
  else if angle < 0 then angle + Real.pi * 2
  else angle

/-- The body of the `surfaceOrientation` loop for one normal's (x, y)
components: normalize the 2-D vector, take θ = atan2(y, x) wrapped by
`angleRangeClamp`, discretize into `region = floor(θ / (2π/8))` (the
source's n = 8), and normalize by `region /= n - 1`. -/
def orientScalar (x y : ℝ) : ℝ :=
  (⌊angleRangeClamp (atan2 (vec2normalize x y).2 (vec2normalize x y).1) /
    (2 * Real.pi / 8)⌋ : ℝ) / (8 - 1)

/-- `surfaceOrientation` of mesh_tools.js: the loop steps by 3 over the
flat unwrapped normal array, reading entries i and i+1 (the z component
is unused), pushing one scalar per vertex slot. A trailing fragment
shorter than 3 would read past the array's end in the source (NaN junk);
the embedding stops there (no claim touches that case). -/
def surfaceOrientation : List ℝ → List ℝ
  | x :: y :: _ :: rest => orientScalar x y :: surfaceOrientation rest
  | _ => []

/-- `clampTrace` of mesh_tools.js: traces above 1000 are clamped to
1000. -/
def clampTrace (trace : ℝ) : ℝ :=
  if trace > 1000 then 1000 else trace

/-- The glMatrix `mat2.invert`-then-`mat2.multiply` trace of the
`surfaceVariation` loop body, on the entries G = (G0 G1 G2 G3) and
H = (H0 H1 H2 H3) as stored by the source (G1 = G2 and H1 = H2, both
matrices symmetric, so the column-major storage is immaterial).
`mat2.invert` computes det = G0*G3 - G2*G1 and returns null without
writing `out` when det is zero; the source ignores the return value, so
the multiply then runs on the ORIGINAL G; otherwise on the inverted
entries (G3/det, -G1/det, -G2/det, G0/det). The result is
res[0] + res[3] of the product. -/
def mat2InvertTrace (G0 G1 G2 G3 H0 H1 H2 H3 : ℝ) : ℝ :=
  if G0 * G3 - G2 * G1 = 0 then
    (G0 * H0 + G2 * H1) + (G1 * H2 + G3 * H3)
  else
    (G3 * (1 / (G0 * G3 - G2 * G1)) * H0 +
      -G2 * (1 / (G0 * G3 - G2 * G1)) * H1) +
    (-G1 * (1 / (G0 * G3 - G2 * G1)) * H2 +
      G0 * (1 / (G0 * G3 - G2 * G1)) * H3)

/-- The trace the `surfaceVariation` loop computes for one triangle from
its edge vectors u, v and normal differences nu, nv: G from dot products
of u and v, H from dot products of nu and nv, then the
invert-multiply-trace of glMatrix. -/
def triTrace (u v nu nv : Vec3) : ℝ :=
  mat2InvertTrace (Vec3.dot u u) (Vec3.dot u v) (Vec3.dot u v)
    (Vec3.dot v v) (Vec3.dot nu nu) (Vec3.dot nu nv) (Vec3.dot nu nv)
    (Vec3.dot nv nv)

/-- The element reads of the `surfaceVariation` loop: for each block of
nine entries (i stepping by 9) build the edge vectors
u = (verts[i+3]-verts[i], verts[i+4]-verts[i+1], verts[i+5]-verts[i+2]),
v = (verts[i+6]-verts[i], ...), and likewise nu, nv from the normal
array. A trailing fragment shorter than nine would read past the end in
the source (NaN junk); the embedding stops there (the claims restrict
inputs to length 9T). -/
def svChunks : List ℝ → List ℝ → List ((Vec3 × Vec3) × (Vec3 × Vec3))
  | v0 :: v1 :: v2 :: v3 :: v4 :: v5 :: v6 :: v7 :: v8 :: vrest,
    n0 :: n1 :: n2 :: n3 :: n4 :: n5 :: n6 :: n7 :: n8 :: nrest =>
    ((⟨v3 - v0, v4 - v1, v5 - v2⟩, ⟨v6 - v0, v7 - v1, v8 - v2⟩),
     (⟨n3 - n0, n4 - n1, n5 - n2⟩, ⟨n6 - n0, n7 - n1, n8 - n2⟩)) ::
    svChunks vrest nrest
  | _, _ => []

/-- The per-triangle clamped traces of `surfaceVariation`, one per block
of nine entries. -/
def svTraces (verts vNorms : List ℝ) : List ℝ :=
  (svChunks verts vNorms).map
    (fun c => clampTrace (triTrace c.1.1 c.1.2 c.2.1 c.2.2))

/-- `surfaceVariation` of mesh_tools.js: each clamped trace is pushed
three times (one scalar per vertex slot of the triangle); `largest` is
folded from `Number.NEGATIVE_INFINITY` over the clamped traces, hence
equals their maximum (`listMax`); finally every scalar is divided by
`largest` and passed through the contrast curve
`1 - exp(2.99572315 - 15*s) / 20`. -/
def surfaceVariation (verts vNorms : List ℝ) : List ℝ :=
  ((svTraces verts vNorms).flatMap (fun t => [t, t, t])).map
    (fun s => 1 - Real.exp (2.99572315 -
      15 * (s / listMax (svTraces verts vNorms))) / 20)

/-- The per-triangle Dirichlet energy in the spec's terms:
`trace(G⁻¹ * H)` with Mathlib's matrix inverse and trace, G the first
fundamental form of the edge vectors and H the normal-variation form. -/
def specEnergy (u v nu nv : Vec3) : ℝ :=
  Matrix.trace
    ((!![Vec3.dot u u, Vec3.dot u v; Vec3.dot u v, Vec3.dot v v])⁻¹ *
      !![Vec3.dot nu nu, Vec3.dot nu nv; Vec3.dot nu nv, Vec3.dot nv nv])

/-- The contrast curve of the spec. -/
def specCurve (e : ℝ) : ℝ := 1 - Real.exp (2.99572315 - 15 * e) / 20

/-- The clamped per-triangle energies, in the spec's terms. -/
def specClampedEnergies (verts vNorms : List ℝ) : List ℝ :=
  (svChunks verts vNorms).map
    (fun c => clampTrace (specEnergy c.1.1 c.1.2 c.2.1 c.2.2))

lemma set3_getElem? {α : Type} (l : List α) (a b c : ℕ) (w : α) (v : ℕ)
    (hv : v = a ∨ v = b ∨ v = c) (hlt : v < l.length) :
    (((l.set a w).set b w).set c w)[v]? = some w := by
  rcases eq_or_ne v c with rfl | hc
  · rw [List.getElem?_set_self (by simpa using hlt)]
  rcases eq_or_ne v b with rfl | hb
  · rw [List.getElem?_set_ne (fun h => hc h.symm),
      List.getElem?_set_self (by simpa using hlt)]
  rcases eq_or_ne v a with rfl | ha
  · rw [List.getElem?_set_ne (fun h => hc h.symm),
      List.getElem?_set_ne (fun h => hb h.symm),
      List.getElem?_set_self hlt]
  · rcases hv with h | h | h
    · exact absurd h.symm (fun h2 => ha h2.symm)
    · exact absurd h hb
    · exact absurd h hc

lemma set3_getElem?_ne {α : Type} (l : List α) (a b c : ℕ) (w : α) (v : ℕ)
    (hv : v ≠ a ∧ v ≠ b ∧ v ≠ c) :
    (((l.set a w).set b w).set c w)[v]? = l[v]? := by
  rw [List.getElem?_set_ne (fun h => hv.2.2 h.symm),
    List.getElem?_set_ne (fun h => hv.2.1 h.symm),
    List.getElem?_set_ne (fun h => hv.1 h.symm)]

/-- Generic behaviour of the scatter loops (`faceNormals`/`faceVectors`):
starting from any array of the point-list length and folding a step that
writes `g t` to the three vertex slots of each triangle `t`, the fold
succeeds; untouched slots keep their initial value; every slot referenced
by some triangle holds a value; and a slot whose last referencing
triangle (in iteration order) is `t` holds `g t`. -/
lemma scatter_fold (n : ℕ) (g : Tri → Vec3)
    (step : List (Option Vec3) → Tri → Option (List (Option Vec3)))
    (ind : List Tri) :
    (∀ norms t, t ∈ ind → norms.length = n →
      step norms t = some (((norms.set t.a (some (g t))).set t.b
        (some (g t))).set t.c (some (g t)))) →
    (∀ t ∈ ind, t.a < n ∧ t.b < n ∧ t.c < n) →
    ∀ init : List (Option Vec3), init.length = n →
    ∃ out, ind.foldlM step init = some out ∧ out.length = n ∧
      (∀ v, (∀ t ∈ ind, v ≠ t.a ∧ v ≠ t.b ∧ v ≠ t.c) →
        out[v]? = init[v]?) ∧
      (∀ v, (∃ t ∈ ind, v = t.a ∨ v = t.b ∨ v = t.c) →
        ∃ w, out[v]? = some (some w)) ∧
      (∀ (i : ℕ) (t : Tri), ind[i]? = some t →
        ∀ v, (v = t.a ∨ v = t.b ∨ v = t.c) →
        (∀ (j : ℕ) (s : Tri), i < j → ind[j]? = some s →
          v ≠ s.a ∧ v ≠ s.b ∧ v ≠ s.c) →
        out[v]? = some (some (g t))) := by
  induction ind with
  | nil =>
    intro _ _ init hlen
    exact ⟨init, by simp, hlen, fun v _ => rfl, fun v hv => by simp at hv,
      fun i t hit => by simp at hit⟩
  | cons t rest ih =>
    intro hstep hvalid init hlen
    have hts := hstep init t (List.mem_cons_self t rest) hlen
    have hlen2 : (((init.set t.a (some (g t))).set t.b (some (g t))).set t.c
        (some (g t))).length = n := by simpa using hlen
    obtain ⟨out, hfold, houtlen, huntouched, hdefined, hlast⟩ :=
      ih (fun norms s hs hl => hstep norms s (List.mem_cons_of_mem t hs) hl)
        (fun s hs => hvalid s (List.mem_cons_of_mem t hs)) _ hlen2
    have hta := hvalid t (List.mem_cons_self t rest)
    refine ⟨out, ?_, houtlen, ?_, ?_, ?_⟩
    · rw [List.foldlM_cons, hts]
      exact hfold
    · intro v hv
      rw [huntouched v (fun s hs => hv s (List.mem_cons_of_mem t hs)),
        set3_getElem?_ne init t.a t.b t.c _ v (hv t (List.mem_cons_self t rest))]
    · intro v hv
      rcases Classical.em (∃ s ∈ rest, v = s.a ∨ v = s.b ∨ v = s.c) with hr | hr
      · exact hdefined v hr
      · have hvt : v = t.a ∨ v = t.b ∨ v = t.c := by
          rcases hv with ⟨s, hs, hvs⟩
          rcases List.mem_cons.mp hs with rfl | hmem
          · exact hvs
          · exact absurd ⟨s, hmem, hvs⟩ hr
        have hnr : ∀ s ∈ rest, v ≠ s.a ∧ v ≠ s.b ∧ v ≠ s.c := by
          intro s hs
          refine ⟨?_, ?_, ?_⟩ <;> intro hv2 <;> exact hr ⟨s, hs, by tauto⟩
        have hvlt : v < n := by
          rcases hvt with rfl | rfl | rfl
          exacts [hta.1, hta.2.1, hta.2.2]
        refine ⟨g t, ?_⟩
        rw [huntouched v hnr,
          set3_getElem? init t.a t.b t.c _ v hvt (by rw [hlen]; exact hvlt)]
    · intro i s hit v hvt hnolater
      match i, hit with
      | 0, hit =>
        have hst : t = s := by simpa using hit
        subst hst
        have hvlt : v < n := by
          rcases hvt with rfl | rfl | rfl
          exacts [hta.1, hta.2.1, hta.2.2]
        have hnr : ∀ q ∈ rest, v ≠ q.a ∧ v ≠ q.b ∧ v ≠ q.c := by
          intro q hq
          obtain ⟨j, hjlt, hj⟩ := List.getElem_of_mem hq
          refine hnolater (j + 1) q (Nat.succ_pos j) ?_
          rw [List.getElem?_cons_succ, List.getElem?_eq_getElem hjlt, hj]
        rw [huntouched v hnr,
          set3_getElem? init t.a t.b t.c _ v hvt (by rw [hlen]; exact hvlt)]
      | i + 1, hit =>
        refine hlast i s (by simpa using hit) v hvt ?_
        intro j q hij hj
        exact hnolater (j + 1) q (Nat.succ_lt_succ hij) (by simpa using hj)

lemma getElem?_eq_some_getD {α : Type} (l : List α) (i : ℕ) (d : α)
    (h : i < l.length) : l[i]? = some (l.getD i d) := by
  simp [List.getElem?_eq_getElem h, List.getD_eq_getElem?_getD,
    List.getElem?_eq_getElem]

lemma faceNormalsStep_eq (verts : List Vec3) (norms : List (Option Vec3))
    (t : Tri) (ha : t.a < verts.length) (hb : t.b < verts.length)
    (hc : t.c < verts.length) :
    faceNormalsStep verts norms t =
      some (((norms.set t.a (some (faceNormalOf verts t))).set t.b
        (some (faceNormalOf verts t))).set t.c
        (some (faceNormalOf verts t))) := by
  simp only [faceNormalsStep,
    getElem?_eq_some_getD verts t.a Vec3.zero ha,
    getElem?_eq_some_getD verts t.b Vec3.zero hb,
    getElem?_eq_some_getD verts t.c Vec3.zero hc]
  rfl

lemma faceVectorsStep_eq (verts : List Vec3) (norms : List (Option Vec3))
    (t : Tri) (ha : t.a < verts.length) (hb : t.b < verts.length)
    (hc : t.c < verts.length) :
    faceVectorsStep verts norms t =
      some (((norms.set t.a (some (faceVectorOf verts t))).set t.b
        (some (faceVectorOf verts t))).set t.c
        (some (faceVectorOf verts t))) := by
  simp only [faceVectorsStep,
    getElem?_eq_some_getD verts t.a Vec3.zero ha,
    getElem?_eq_some_getD verts t.b Vec3.zero hb,
    getElem?_eq_some_getD verts t.c Vec3.zero hc]
  rfl

lemma faceNormals_fold (verts : List Vec3) (ind : List Tri)
    (hvalid : ∀ t ∈ ind,
      t.a < verts.length ∧ t.b < verts.length ∧ t.c < verts.length) :
    ∃ out, faceNormals verts ind = some out ∧ out.length = verts.length ∧
      (∀ v, (∀ t ∈ ind, v ≠ t.a ∧ v ≠ t.b ∧ v ≠ t.c) →
        out[v]? = (List.replicate verts.length (none : Option Vec3))[v]?) ∧
      (∀ v, (∃ t ∈ ind, v = t.a ∨ v = t.b ∨ v = t.c) →
        ∃ w, out[v]? = some (some w)) ∧
      (∀ (i : ℕ) (t : Tri), ind[i]? = some t →
        ∀ v, (v = t.a ∨ v = t.b ∨ v = t.c) →
        (∀ (j : ℕ) (s : Tri), i < j → ind[j]? = some s →
          v ≠ s.a ∧ v ≠ s.b ∧ v ≠ s.c) →
        out[v]? = some (some (faceNormalOf verts t))) :=
  scatter_fold verts.length (faceNormalOf verts) (faceNormalsStep verts) ind
    (fun norms t ht _ => faceNormalsStep_eq verts norms t
      (hvalid t ht).1 (hvalid t ht).2.1 (hvalid t ht).2.2)
    hvalid (List.replicate verts.length none) (by simp)

lemma faceVectors_fold (verts : List Vec3) (ind : List Tri)
    (hvalid : ∀ t ∈ ind,
      t.a < verts.length ∧ t.b < verts.length ∧ t.c < verts.length) :
    ∃ out, faceVectors verts ind = some out ∧ out.length = verts.length ∧
      (∀ v, (∀ t ∈ ind, v ≠ t.a ∧ v ≠ t.b ∧ v ≠ t.c) →
        out[v]? = (List.replicate verts.length (none : Option Vec3))[v]?) ∧
      (∀ v, (∃ t ∈ ind, v = t.a ∨ v = t.b ∨ v = t.c) →
        ∃ w, out[v]? = some (some w)) ∧
      (∀ (i : ℕ) (t : Tri), ind[i]? = some t →
        ∀ v, (v = t.a ∨ v = t.b ∨ v = t.c) →
        (∀ (j : ℕ) (s : Tri), i < j → ind[j]? = some s →
          v ≠ s.a ∧ v ≠ s.b ∧ v ≠ s.c) →
        out[v]? = some (some (faceVectorOf verts t))) :=
  scatter_fold verts.length (faceVectorOf verts) (faceVectorsStep verts) ind
    (fun norms t ht _ => faceVectorsStep_eq verts norms t
      (hvalid t ht).1 (hvalid t ht).2.1 (hvalid t ht).2.2)
    hvalid (List.replicate verts.length none) (by simp)

lemma getD_set_append (l : List (List ℕ)) (k : ℕ) (xs : List ℕ)
    (hk : k < l.length) (i : ℕ) :
    (l.set k (l.getD k [] ++ xs)).getD i [] =
      l.getD i [] ++ (if i = k then xs else []) := by
  rcases eq_or_ne i k with rfl | hik
  · simp only [if_pos rfl, List.getD_eq_getElem?_getD,
      List.getElem?_set_self hk]
    rw [List.getElem?_eq_getElem hk]
    rfl
  · simp only [if_neg hik, List.append_nil, List.getD_eq_getElem?_getD,
      List.getElem?_set_ne (fun h => hik h.symm)]

lemma adjacencyStep_sets (init : List (List ℕ)) (t : Tri)
    (ha : t.a < init.length) (hb : t.b < init.length)
    (hc : t.c < init.length) :
    ∃ init2, adjacencyStep init t = some init2 ∧
      init2.length = init.length ∧
      ∀ i, init2[i]? = (init[i]?).map (fun l => l ++ adjContrib t i) := by
  have e1 := getElem?_eq_some_getD init t.a [] ha
  have hlen1 : (init.set t.a (init.getD t.a [] ++ [t.b, t.c])).length =
      init.length := by simp
  have e2 := getElem?_eq_some_getD
    (init.set t.a (init.getD t.a [] ++ [t.b, t.c])) t.b []
    (by rw [hlen1]; exact hb)
  have hlen2 : ((init.set t.a (init.getD t.a [] ++ [t.b, t.c])).set t.b
      ((init.set t.a (init.getD t.a [] ++ [t.b, t.c])).getD t.b [] ++
        [t.a, t.c])).length = init.length := by simp
  have e3 := getElem?_eq_some_getD
    ((init.set t.a (init.getD t.a [] ++ [t.b, t.c])).set t.b
      ((init.set t.a (init.getD t.a [] ++ [t.b, t.c])).getD t.b [] ++
        [t.a, t.c])) t.c [] (by rw [hlen2]; exact hc)
  have hstep : adjacencyStep init t = some
      (((init.set t.a (init.getD t.a [] ++ [t.b, t.c])).set t.b
        ((init.set t.a (init.getD t.a [] ++ [t.b, t.c])).getD t.b [] ++
          [t.a, t.c])).set t.c
        (((init.set t.a (init.getD t.a [] ++ [t.b, t.c])).set t.b
          ((init.set t.a (init.getD t.a [] ++ [t.b, t.c])).getD t.b [] ++
            [t.a, t.c])).getD t.c [] ++ [t.a, t.b])) := by
    simp only [adjacencyStep, e1, e2, e3, Option.bind_eq_bind,
      Option.some_bind, Option.pure_def]
  refine ⟨_, hstep, by simp, ?_⟩
  intro i
  rcases Nat.lt_or_ge i init.length with hi | hi
  · rw [getElem?_eq_some_getD init i [] hi, Option.map_some',
      getElem?_eq_some_getD _ i [] (by simp; exact hi)]
    rw [getD_set_append _ t.c _ (by rw [hlen2]; exact hc) i,
      getD_set_append _ t.b _ (by rw [hlen1]; exact hb) i,
      getD_set_append _ t.a _ ha i]
    simp [adjContrib, List.append_assoc]
  · rw [List.getElem?_eq_none hi, List.getElem?_eq_none (by simp; exact hi)]
    rfl

lemma buildAdjacency_go (ind : List Tri) (n : ℕ) :
    (∀ t ∈ ind, t.a < n ∧ t.b < n ∧ t.c < n) →
    ∀ init : List (List ℕ), init.length = n →
    ∃ adj, ind.foldlM adjacencyStep init = some adj ∧ adj.length = n ∧
      ∀ i, adj[i]? = (init[i]?).map (fun l => l ++ adjSpec ind i) := by
  induction ind with
  | nil =>
    intro _ init hlen
    refine ⟨init, by simp, hlen, fun i => ?_⟩
    rcases h : init[i]? with _ | l
    · rfl
    · simp [adjSpec]
  | cons t rest ih =>
    intro hvalid init hlen
    obtain ⟨init2, hstep, hlen2, hget2⟩ := adjacencyStep_sets init t
      (by rw [hlen]; exact (hvalid t (List.mem_cons_self t rest)).1)
      (by rw [hlen]; exact (hvalid t (List.mem_cons_self t rest)).2.1)
      (by rw [hlen]; exact (hvalid t (List.mem_cons_self t rest)).2.2)
    obtain ⟨adj, hfold, hadjlen, hadjget⟩ :=
      ih (fun s hs => hvalid s (List.mem_cons_of_mem t hs)) init2
        (by rw [hlen2, hlen])
    refine ⟨adj, ?_, hadjlen, fun i => ?_⟩
    · rw [List.foldlM_cons, hstep]
      exact hfold
    · rw [hadjget i, hget2 i]
      rcases h : init[i]? with _ | l
      · rfl
      · simp [adjSpec, List.flatMap_cons, List.append_assoc]

lemma buildAdjacency_eval (verts : List Vec3) (ind : List Tri)
    (hvalid : ∀ t ∈ ind,
      t.a < verts.length ∧ t.b < verts.length ∧ t.c < verts.length) :
    ∃ adj, buildAdjacency verts.length ind = some adj ∧
      adj.length = verts.length ∧
      ∀ i < verts.length, adj[i]? = some (adjSpec ind i) := by
  obtain ⟨adj, hfold, hlen, hget⟩ := buildAdjacency_go ind verts.length
    hvalid (List.replicate verts.length []) (by simp)
  refine ⟨adj, hfold, hlen, fun i hi => ?_⟩
  rw [hget i]
  simp [List.getElem?_replicate, hi]

lemma mapM_some {α β : Type} (f : α → Option β) (g : α → β) :
    ∀ l : List α, (∀ x ∈ l, f x = some (g x)) → l.mapM f = some (l.map g) := by
  intro l
  induction l with
  | nil => intro _; rfl
  | cons a rest ih =>
    intro h
    rw [List.mapM_cons, h a (List.mem_cons_self a rest),
      ih (fun x hx => h x (List.mem_cons_of_mem a hx))]
    rfl

lemma sumFaceVecs_some (fv : List (Option Vec3)) (entries : List ℕ)
    (h : ∀ e ∈ entries, ∃ w, fv[e]? = some (some w)) :
    ∀ acc, ∃ s, sumFaceVecs fv entries acc = some s := by
  induction entries with
  | nil => exact fun acc => ⟨acc, rfl⟩
  | cons e rest ih =>
    intro acc
    obtain ⟨w, hw⟩ := h e (List.mem_cons_self e rest)
    obtain ⟨s, hs⟩ := ih (fun x hx => h x (List.mem_cons_of_mem e hx))
      (Vec3.add acc w)
    exact ⟨s, by rw [sumFaceVecs, hw]; exact hs⟩

lemma mem_adjSpec (ind : List Tri) (i : ℕ) (e : ℕ)
    (he : e ∈ adjSpec ind i) :
    ∃ t ∈ ind, e = t.a ∨ e = t.b ∨ e = t.c := by
  rw [adjSpec, List.mem_flatMap] at he
  obtain ⟨t, ht, hmem⟩ := he
  refine ⟨t, ht, ?_⟩
  rw [adjContrib] at hmem
  rcases List.mem_append.mp hmem with hm | hm
  · rcases List.mem_append.mp hm with hm2 | hm2
    · rcases Classical.em (i = t.a) with h | h
      · rw [if_pos h] at hm2
        rcases List.mem_cons.mp hm2 with rfl | hm3
        · tauto
        · simp at hm3
          tauto
      · rw [if_neg h] at hm2
        cases hm2
    · rcases Classical.em (i = t.b) with h | h
      · rw [if_pos h] at hm2
        rcases List.mem_cons.mp hm2 with rfl | hm3
        · tauto
        · simp at hm3
          tauto
      · rw [if_neg h] at hm2
        cases hm2
  · rcases Classical.em (i = t.c) with h | h
    · rw [if_pos h] at hm
      rcases List.mem_cons.mp hm with rfl | hm3
      · tauto
      · simp at hm3
        tauto
    · rw [if_neg h] at hm
      cases hm

lemma adjContrib_length (t : Tri) (i : ℕ) :
    (adjContrib t i).length = 2 * ((if i = t.a then 1 else 0) +
      (if i = t.b then 1 else 0) + (if i = t.c then 1 else 0)) := by
  rw [adjContrib]
  simp only [List.length_append]
  split_ifs <;> simp

lemma adjSpec_length (ind : List Tri) (i : ℕ) :
    (adjSpec ind i).length = 2 * slotCount ind i := by
  induction ind with
  | nil => rfl
  | cons t rest ih =>
    rw [adjSpec, List.flatMap_cons, List.length_append]
    rw [adjSpec] at ih
    rw [ih, adjContrib_length]
    have hc : slotCount (t :: rest) i = ((if i = t.a then 1 else 0) +
        (if i = t.b then 1 else 0) + (if i = t.c then 1 else 0)) +
        slotCount rest i := by
      rw [slotCount]
      rw [List.map_cons, List.sum_cons]
      rfl
    rw [hc]
    ring

lemma vertexNormals_eval (verts : List Vec3) (ind : List Tri)
    (hvalid : ∀ t ∈ ind,
      t.a < verts.length ∧ t.b < verts.length ∧ t.c < verts.length) :
    ∃ adj fv, buildAdjacency verts.length ind = some adj ∧
      faceVectors verts ind = some fv ∧ fv.length = verts.length ∧
      (∀ i < verts.length, adj[i]? = some (adjSpec ind i)) ∧
      ∃ out, vertexNormals verts ind = some out ∧
        out.length = verts.length ∧
        ∀ i < verts.length,
          ∃ s, sumFaceVecs fv (adjSpec ind i) Vec3.zero = some s ∧
            out[i]? = some (Vec3.normalize s) := by
  obtain ⟨adj, hadj, hadjlen, hadjget⟩ := buildAdjacency_eval verts ind hvalid
  obtain ⟨fv, hfv, hfvlen, _, hfvdef, _⟩ := faceVectors_fold verts ind hvalid
  have hsum : ∀ i < verts.length,
      ∃ s, sumFaceVecs fv (adjSpec ind i) Vec3.zero = some s := by
    intro i hi
    refine sumFaceVecs_some fv (adjSpec ind i) ?_ Vec3.zero
    intro e he
    obtain ⟨t, ht, hte⟩ := mem_adjSpec ind i e he
    exact hfvdef e ⟨t, ht, hte⟩
  have hbody : ∀ i ∈ List.range verts.length,
      (do
        let entries ← adj[i]?
        let s ← sumFaceVecs fv entries Vec3.zero
        pure (Vec3.normalize s) : Option Vec3) =
      some (Vec3.normalize
        ((sumFaceVecs fv (adjSpec ind i) Vec3.zero).getD Vec3.zero)) := by
    intro i hi
    have hi2 := List.mem_range.mp hi
    obtain ⟨s, hs⟩ := hsum i hi2
    rw [hadjget i hi2, Option.bind_eq_bind, Option.some_bind, hs]
    simp [hs]
  refine ⟨adj, fv, hadj, hfv, hfvlen, hadjget, ?_⟩
  refine ⟨(List.range verts.length).map (fun i => Vec3.normalize
    ((sumFaceVecs fv (adjSpec ind i) Vec3.zero).getD Vec3.zero)), ?_, ?_, ?_⟩
  · simp only [vertexNormals, hadj, hfv, Option.bind_eq_bind,
      Option.some_bind]
    exact mapM_some _ _ (List.range verts.length) hbody
  · simp
  · intro i hi
    obtain ⟨s, hs⟩ := hsum i hi
    refine ⟨s, hs, ?_⟩
    rw [List.getElem?_map, List.getElem?_range hi]
    simp [hs]

lemma sumVecs_some (fv : List Vec3) (entries : List ℕ)
    (h : ∀ e ∈ entries, e < fv.length) :
    ∀ acc, ∃ s, sumVecs fv entries acc = some s := by
  induction entries with
  | nil => exact fun acc => ⟨acc, rfl⟩
  | cons e rest ih =>
    intro acc
    have he := h e (List.mem_cons_self e rest)
    obtain ⟨s, hs⟩ := ih (fun x hx => h x (List.mem_cons_of_mem e hx))
      (Vec3.add acc (fv.getD e Vec3.zero))
    exact ⟨s, by rw [sumVecs, getElem?_eq_some_getD fv e Vec3.zero he]; exact hs⟩

lemma vertexNormalsSlotKeyed_eval (verts : List Vec3) (ind : List Tri)
    (hvalid : ∀ t ∈ ind,
      t.a < verts.length ∧ t.b < verts.length ∧ t.c < verts.length)
    (hentries : ∀ i < verts.length, ∀ e ∈ adjSpec ind i,
      e < (slotFaceVectors verts ind).length) :
    ∃ out, vertexNormalsSlotKeyed verts ind = some out ∧
      out.length = verts.length ∧
      ∀ i < verts.length,
        ∃ s, sumVecs (slotFaceVectors verts ind) (adjSpec ind i)
            Vec3.zero = some s ∧
          out[i]? = some (Vec3.normalize s) := by
  obtain ⟨adj, hadj, hadjlen, hadjget⟩ := buildAdjacency_eval verts ind hvalid
  have hsum : ∀ i < verts.length, ∃ s,
      sumVecs (slotFaceVectors verts ind) (adjSpec ind i) Vec3.zero =
        some s :=
    fun i hi => sumVecs_some _ _ (hentries i hi) Vec3.zero
  have hbody : ∀ i ∈ List.range verts.length,
      (do
        let entries ← adj[i]?
        let s ← sumVecs (slotFaceVectors verts ind) entries Vec3.zero
        pure (Vec3.normalize s) : Option Vec3) =
      some (Vec3.normalize
        ((sumVecs (slotFaceVectors verts ind) (adjSpec ind i)
          Vec3.zero).getD Vec3.zero)) := by
    intro i hi
    have hi2 := List.mem_range.mp hi
    obtain ⟨s, hs⟩ := hsum i hi2
    rw [hadjget i hi2, Option.bind_eq_bind, Option.some_bind, hs]
    simp [hs]
  refine ⟨(List.range verts.length).map (fun i => Vec3.normalize
    ((sumVecs (slotFaceVectors verts ind) (adjSpec ind i)
      Vec3.zero).getD Vec3.zero)), ?_, by simp, ?_⟩
  · simp only [vertexNormalsSlotKeyed, hadj, Option.bind_eq_bind,
      Option.some_bind]
    exact mapM_some _ _ (List.range verts.length) hbody
  · intro i hi
    obtain ⟨s, hs⟩ := hsum i hi
    refine ⟨s, hs, ?_⟩
    rw [List.getElem?_map, List.getElem?_range hi]
    simp [hs]

lemma angleRangeClamp_mem (a : ℝ) (hgt : -Real.pi < a) (hle : a ≤ Real.pi) :
    0 ≤ angleRangeClamp a ∧ angleRangeClamp a < 2 * Real.pi := by
  have hpi := Real.pi_pos
  rw [angleRangeClamp]
  split_ifs with h1 h2
  · exact absurd h1 (by nlinarith)
  · constructor <;> nlinarith
  · constructor <;> nlinarith

lemma orientScalar_levels (x y : ℝ) :
    ∃ k : ℕ, k ≤ 7 ∧ orientScalar x y = (k : ℝ) / 7 := by
  have hle : atan2 (vec2normalize x y).2 (vec2normalize x y).1 ≤
      Real.pi := Complex.arg_le_pi _
  have hgt : -Real.pi < atan2 (vec2normalize x y).2 (vec2normalize x y).1 :=
    Complex.neg_pi_lt_arg _
  obtain ⟨h0, h2pi⟩ := angleRangeClamp_mem _ hgt hle
  have hd : 0 < 2 * Real.pi / 8 := by positivity
  have hu0 : 0 ≤ angleRangeClamp
      (atan2 (vec2normalize x y).2 (vec2normalize x y).1) /
      (2 * Real.pi / 8) := div_nonneg h0 hd.le
  have hu8 : angleRangeClamp
      (atan2 (vec2normalize x y).2 (vec2normalize x y).1) /
      (2 * Real.pi / 8) < 8 := by
    rw [div_lt_iff₀ hd]
    nlinarith
  have hfl0 : 0 ≤ ⌊angleRangeClamp
      (atan2 (vec2normalize x y).2 (vec2normalize x y).1) /
      (2 * Real.pi / 8)⌋ := Int.floor_nonneg.mpr hu0
  have hfl8 : ⌊angleRangeClamp
      (atan2 (vec2normalize x y).2 (vec2normalize x y).1) /
      (2 * Real.pi / 8)⌋ < 8 := Int.floor_lt.mpr (by exact_mod_cast hu8)
  refine ⟨(⌊angleRangeClamp
      (atan2 (vec2normalize x y).2 (vec2normalize x y).1) /
      (2 * Real.pi / 8)⌋).toNat, by omega, ?_⟩
  have hcast : (((⌊angleRangeClamp
      (atan2 (vec2normalize x y).2 (vec2normalize x y).1) /
      (2 * Real.pi / 8)⌋).toNat : ℕ) : ℝ) =
      ((⌊angleRangeClamp
      (atan2 (vec2normalize x y).2 (vec2normalize x y).1) /
      (2 * Real.pi / 8)⌋ : ℤ) : ℝ) := by
    exact_mod_cast Int.toNat_of_nonneg hfl0
  rw [orientScalar, hcast]
  norm_num

lemma surfaceOrientation_mem (norms : List ℝ) (s : ℝ)
    (hs : s ∈ surfaceOrientation norms) :
    ∃ x y, s = orientScalar x y := by
  induction norms using surfaceOrientation.induct with
  | case1 x y z rest ih =>
    rw [surfaceOrientation] at hs
    rcases List.mem_cons.mp hs with rfl | hmem
    · exact ⟨x, y, rfl⟩
    · exact ih hmem
  | case2 l h =>
    rw [surfaceOrientation.eq_def] at hs
    rcases l with _ | ⟨a, _ | ⟨b, _ | ⟨c, rest⟩⟩⟩ <;> simp at hs
    exact absurd rfl (h a b c rest)

lemma surfaceOrientation_getElem? (i : ℕ) (norms : List ℝ)
    (h : 3 * i + 2 < norms.length) :
    (surfaceOrientation norms)[i]? =
      some (orientScalar (norms.getD (3 * i) 0)
        (norms.getD (3 * i + 1) 0)) := by
  induction i generalizing norms with
  | zero =>
    match norms, h with
    | x :: y :: z :: rest, _ =>
      rw [surfaceOrientation]
      simp [List.getD_cons_zero, List.getD_cons_succ]
  | succ i ih =>
    match norms, h with
    | x :: y :: z :: rest, h =>
      have h2 : 3 * i + 2 < rest.length := by
        simp only [List.length_cons] at h
        omega
      rw [surfaceOrientation]
      have e0 : 3 * (i + 1) = 3 * i + 1 + 1 + 1 := by ring
      rw [e0]
      simp only [List.getElem?_cons_succ, List.getD_cons_succ]
      exact ih rest h2

lemma triTrace_eq_specEnergy (u v nu nv : Vec3)
    (hdet : Vec3.dot u u * Vec3.dot v v -
      Vec3.dot u v * Vec3.dot u v ≠ 0) :
    triTrace u v nu nv = specEnergy u v nu nv := by
  rw [triTrace, mat2InvertTrace, if_neg hdet, specEnergy]
  rw [Matrix.inv_def, Matrix.adjugate_fin_two, Matrix.det_fin_two]
  rw [Ring.inverse_eq_inv]
  rw [Matrix.smul_mul, Matrix.trace_smul]
  rw [Matrix.mul_fin_two, Matrix.trace_fin_two_of]
  field_simp
  ring

lemma map_flatMap_triple (L : List ℝ) (f : ℝ → ℝ) :
    (L.flatMap (fun t => [t, t, t])).map f =
      L.flatMap (fun t => [f t, f t, f t]) := by
  induction L with
  | nil => rfl
  | cons a l ih => simp [List.flatMap_cons, ih]

lemma unwrapArray_length {α : Type} (v : List α) (inds : List Tri) :
    (unwrapArray v inds).length = 3 * inds.length := by
  induction inds with
  | nil => rfl
  | cons t rest ih =>
    rw [unwrapArray]
    simp only [List.length_cons, ih]
    ring

lemma exists_cons9 (l : List ℝ) (T : ℕ) (h : l.length = 9 * (T + 1)) :
    ∃ a0 a1 a2 a3 a4 a5 a6 a7 a8 rest,
      l = a0 :: a1 :: a2 :: a3 :: a4 :: a5 :: a6 :: a7 :: a8 :: rest ∧
      rest.length = 9 * T := by
  rcases l with _ | ⟨a0, l⟩
  · simp only [List.length_nil] at h
    omega
  rcases l with _ | ⟨a1, l⟩
  · simp only [List.length_cons, List.length_nil] at h
    omega
  rcases l with _ | ⟨a2, l⟩
  · simp only [List.length_cons, List.length_nil] at h
    omega
  rcases l with _ | ⟨a3, l⟩
  · simp only [List.length_cons, List.length_nil] at h
    omega
  rcases l with _ | ⟨a4, l⟩
  · simp only [List.length_cons, List.length_nil] at h
    omega
  rcases l with _ | ⟨a5, l⟩
  · simp only [List.length_cons, List.length_nil] at h
    omega
  rcases l with _ | ⟨a6, l⟩
  · simp only [List.length_cons, List.length_nil] at h
    omega
  rcases l with _ | ⟨a7, l⟩
  · simp only [List.length_cons, List.length_nil] at h
    omega
  rcases l with _ | ⟨a8, l⟩
  · simp only [List.length_cons, List.length_nil] at h
    omega
  refine ⟨a0, a1, a2, a3, a4, a5, a6, a7, a8, l, rfl, ?_⟩
  simp only [List.length_cons] at h
  omega

lemma exists_cons3 (l : List ℝ) (T : ℕ) (h : l.length = 3 * (T + 1)) :
    ∃ a0 a1 a2 rest, l = a0 :: a1 :: a2 :: rest ∧
      rest.length = 3 * T := by
  rcases l with _ | ⟨a0, l⟩
  · simp only [List.length_nil] at h
    omega
  rcases l with _ | ⟨a1, l⟩
  · simp only [List.length_cons, List.length_nil] at h
    omega
  rcases l with _ | ⟨a2, l⟩
  · simp only [List.length_cons, List.length_nil] at h
    omega
  refine ⟨a0, a1, a2, l, rfl, ?_⟩
  simp only [List.length_cons] at h
  omega

lemma svChunks_length : ∀ (T : ℕ) (verts vNorms : List ℝ),
    verts.length = 9 * T → vNorms.length = 9 * T →
    (svChunks verts vNorms).length = T := by
  intro T
  induction T with
  | zero =>
    intro verts vNorms hv _
    have hnil : verts = [] := List.length_eq_zero.mp (by omega)
    subst hnil
    rfl
  | succ T ih =>
    intro verts vNorms hv hn
    obtain ⟨v0, v1, v2, v3, v4, v5, v6, v7, v8, vrest, rfl, hvrest⟩ :=
      exists_cons9 verts T hv
    obtain ⟨n0, n1, n2, n3, n4, n5, n6, n7, n8, nrest, rfl, hnrest⟩ :=
      exists_cons9 vNorms T hn
    rw [svChunks]
    simp only [List.length_cons]
    rw [ih vrest nrest hvrest hnrest]

lemma flatMap_triple_length (L : List ℝ) :
    (L.flatMap (fun t => [t, t, t])).length = 3 * L.length := by
  induction L with
  | nil => rfl
  | cons a l ih =>
    rw [List.flatMap_cons]
    simp only [List.length_append, List.length_cons, ih]
    simp only [List.length_nil]
    ring

lemma surfaceOrientation_length : ∀ (T : ℕ) (l : List ℝ),
    l.length = 3 * T → (surfaceOrientation l).length = T := by
  intro T
  induction T with
  | zero =>
    intro l hl
    have hnil : l = [] := List.length_eq_zero.mp (by omega)
    subst hnil
    rfl
  | succ T ih =>
    intro l hl
    obtain ⟨a0, a1, a2, rest, rfl, hrest⟩ := exists_cons3 l T hl
    rw [surfaceOrientation]
    simp only [List.length_cons]
    rw [ih rest hrest]

lemma sum_map_sub_const (l : List Vec3) (f : Vec3 → ℝ) (c : ℝ) :
    (l.map (fun p => f p - c)).sum = (l.map f).sum - l.length * c := by
  induction l with
  | nil => simp
  | cons a t ih =>
    simp only [List.map_cons, List.sum_cons, ih, List.length_cons]
    push_cast
    ring

lemma centerOfVolume_comp (points : List Vec3) (f : Vec3 → ℝ) (c : ℝ)
    (h : points ≠ []) :
    ((points.map (fun p => f p - c)).sum : ℝ) / ((points.length : ℝ)) =
      (points.map f).sum / (points.length : ℝ) - c := by
  have hn : (points.length : ℝ) ≠ 0 := by
    simpa using h
  rw [sum_map_sub_const]
  field_simp

/-- C4: with in-range indices `faceNormals` succeeds, returns an array
sized to the point list, and writes `normalize((P[b]-P[a]) x (P[c]-P[a]))`
of each triangle to the slots of its three vertices; a slot whose last
referencing triangle in iteration order is `t` holds the normal of `t`
(last writer wins). -/
theorem faceNormals_scatter_lastWriter (verts : List Vec3) (ind : List Tri)
    (hvalid : ∀ t ∈ ind,
      t.a < verts.length ∧ t.b < verts.length ∧ t.c < verts.length) :
    ∃ out, faceNormals verts ind = some out ∧ out.length = verts.length ∧
      (∀ (i : ℕ) (t : Tri), ind[i]? = some t →
        ∀ v, (v = t.a ∨ v = t.b ∨ v = t.c) →
        (∀ (j : ℕ) (s : Tri), i < j → ind[j]? = some s →
          v ≠ s.a ∧ v ≠ s.b ∧ v ≠ s.c) →
        out[v]? = some (some (faceNormalOf verts t))) := by
  obtain ⟨out, h1, h2, _, _, h5⟩ := faceNormals_fold verts ind hvalid
  exact ⟨out, h1, h2, h5⟩

/-- C4 witness: on the right triangle (0,0,0), (1,0,0), (0,1,0) with the
single triangle (0,1,2), every vertex slot receives the unit normal
(0,0,1). -/
theorem faceNormals_scatter_lastWriter_witness :
    ∃ out, faceNormals [(⟨0, 0, 0⟩ : Vec3), ⟨1, 0, 0⟩, ⟨0, 1, 0⟩]
        [⟨0, 1, 2⟩] = some out ∧
      out[0]? = some (some ⟨0, 0, 1⟩) ∧ out[1]? = some (some ⟨0, 0, 1⟩) ∧
      out[2]? = some (some ⟨0, 0, 1⟩) := by
  obtain ⟨out, h1, _, h3⟩ := faceNormals_scatter_lastWriter
    [(⟨0, 0, 0⟩ : Vec3), ⟨1, 0, 0⟩, ⟨0, 1, 0⟩] [⟨0, 1, 2⟩] (by simp)
  have hnolater : ∀ (j : ℕ) (s : Tri), 0 < j →
      ([(⟨0, 1, 2⟩ : Tri)])[j]? = some s → 0 ≠ s.a ∧ 0 ≠ s.b ∧ 0 ≠ s.c := by
    intro j s hj hjs
    rw [List.getElem?_eq_none (by simpa using hj)] at hjs
    cases hjs
  have hnolater2 : ∀ v : ℕ, ∀ (j : ℕ) (s : Tri), 0 < j →
      ([(⟨0, 1, 2⟩ : Tri)])[j]? = some s → v ≠ s.a ∧ v ≠ s.b ∧ v ≠ s.c := by
    intro v j s hj hjs
    rw [List.getElem?_eq_none (by simpa using hj)] at hjs
    cases hjs
  have hn : faceNormalOf [(⟨0, 0, 0⟩ : Vec3), ⟨1, 0, 0⟩, ⟨0, 1, 0⟩]
      ⟨0, 1, 2⟩ = ⟨0, 0, 1⟩ := by
    norm_num [faceNormalOf, Vec3.normalize, Vec3.cross, Vec3.sub, Vec3.dot,
      Vec3.zero, List.getD, Real.sqrt_one]
  refine ⟨out, h1, ?_, ?_, ?_⟩
  · rw [h3 0 ⟨0, 1, 2⟩ (by simp) 0 (by simp) (hnolater2 0), hn]
  · rw [h3 0 ⟨0, 1, 2⟩ (by simp) 1 (by simp) (hnolater2 1), hn]
  · rw [h3 0 ⟨0, 1, 2⟩ (by simp) 2 (by simp) (hnolater2 2), hn]

/-- C10: with in-range indices, `faceNormals` returns an array of the
point-list length in which every vertex index referenced by no triangle
holds `none` (the JavaScript `undefined`: the slot is never assigned). -/
theorem faceNormals_unreferenced_undefined (verts : List Vec3)
    (ind : List Tri)
    (hvalid : ∀ t ∈ ind,
      t.a < verts.length ∧ t.b < verts.length ∧ t.c < verts.length) :
    ∃ out, faceNormals verts ind = some out ∧ out.length = verts.length ∧
      ∀ v < verts.length, (∀ t ∈ ind, v ≠ t.a ∧ v ≠ t.b ∧ v ≠ t.c) →
        out[v]? = some none := by
  obtain ⟨out, h1, h2, h3, _, _⟩ := faceNormals_fold verts ind hvalid
  refine ⟨out, h1, h2, fun v hv hnot => ?_⟩
  rw [h3 v hnot]
  simp [List.getElem?_replicate, hv]

/-- C10 witness: with four points and the single triangle (0,1,2), the
slot of the unreferenced vertex 3 holds `none`. -/
theorem faceNormals_unreferenced_undefined_witness :
    ∃ out, faceNormals [(⟨0, 0, 0⟩ : Vec3), ⟨1, 0, 0⟩, ⟨0, 1, 0⟩, ⟨5, 5, 5⟩]
        [⟨0, 1, 2⟩] = some out ∧ out.length = 4 ∧ out[3]? = some none := by
  obtain ⟨out, h1, h2, h3⟩ := faceNormals_unreferenced_undefined
    [(⟨0, 0, 0⟩ : Vec3), ⟨1, 0, 0⟩, ⟨0, 1, 0⟩, ⟨5, 5, 5⟩] [⟨0, 1, 2⟩]
    (by simp)
  exact ⟨out, h1, h2, h3 3 (by norm_num) (by simp)⟩

/-- C9: the bounds check of `unwrapVectorArray` is commented out in the
source, so a triangle index equal to the point-list length makes the
consuming operations dereference the JavaScript value `undefined` and
crash (modelled as `none`); no typed IndexOutOfRange error exists in the
code. Here both `unwrapVectorArray` and `faceNormals` crash on a one-point
set with a triangle referencing index 1. -/
theorem indexOutOfRange_crash :
    unwrapVectorArray [(⟨0, 0, 0⟩ : Vec3)] [⟨1, 0, 0⟩] = none ∧
    faceNormals [(⟨0, 0, 0⟩ : Vec3)] [⟨1, 0, 0⟩] = none := by
  constructor
  · simp [unwrapVectorArray]
  · simp [faceNormals, faceNormalsStep, List.foldlM_cons, List.foldlM_nil]

/-- C3 (amended): `vertexNormals` builds an adjacency list in which each
vertex receives, per triangle, two entries for every slot of that
triangle holding it (so 2k entries for a vertex occupying k slots, i.e.
2 per incident triangle when triangle vertices are distinct); it computes
the unnormalized face-vector array via the raw cross-product variant
keyed by POINT index (the array has the point-list length, not one cell
per triangle-vertex slot); and it returns, per vertex, the normalized
sum of that array's cells at the vertex's adjacency entries. -/
theorem vertexNormals_pointKeyed_amended (verts : List Vec3)
    (ind : List Tri)
    (hvalid : ∀ t ∈ ind,
      t.a < verts.length ∧ t.b < verts.length ∧ t.c < verts.length) :
    ∃ adj fv out, buildAdjacency verts.length ind = some adj ∧
      faceVectors verts ind = some fv ∧
      vertexNormals verts ind = some out ∧
      fv.length = verts.length ∧ out.length = verts.length ∧
      (∀ i < verts.length, adj[i]? = some (adjSpec ind i) ∧
        (adjSpec ind i).length = 2 * slotCount ind i) ∧
      (∀ i < verts.length, ∃ s,
        sumFaceVecs fv (adjSpec ind i) Vec3.zero = some s ∧
        out[i]? = some (Vec3.normalize s)) := by
  obtain ⟨adj, fv, hadj, hfv, hfvlen, hadjget, out, hout, houtlen, hres⟩ :=
    vertexNormals_eval verts ind hvalid
  exact ⟨adj, fv, out, hadj, hfv, hout, hfvlen, houtlen,
    fun i hi => ⟨hadjget i hi, adjSpec_length ind i⟩, hres⟩

/-- C3 witness: the amended theorem applied to the single right triangle
over three points. -/
theorem vertexNormals_pointKeyed_amended_witness :
    ∃ adj fv out,
      buildAdjacency [(⟨0, 0, 0⟩ : Vec3), ⟨1, 0, 0⟩, ⟨0, 1, 0⟩].length
        [(⟨0, 1, 2⟩ : Tri)] = some adj ∧
      faceVectors [(⟨0, 0, 0⟩ : Vec3), ⟨1, 0, 0⟩, ⟨0, 1, 0⟩]
        [⟨0, 1, 2⟩] = some fv ∧
      vertexNormals [(⟨0, 0, 0⟩ : Vec3), ⟨1, 0, 0⟩, ⟨0, 1, 0⟩]
        [⟨0, 1, 2⟩] = some out ∧
      fv.length = [(⟨0, 0, 0⟩ : Vec3), ⟨1, 0, 0⟩, ⟨0, 1, 0⟩].length ∧
      out.length = [(⟨0, 0, 0⟩ : Vec3), ⟨1, 0, 0⟩, ⟨0, 1, 0⟩].length ∧
      (∀ i < [(⟨0, 0, 0⟩ : Vec3), ⟨1, 0, 0⟩, ⟨0, 1, 0⟩].length,
        adj[i]? = some (adjSpec [⟨0, 1, 2⟩] i) ∧
        (adjSpec [⟨0, 1, 2⟩] i).length = 2 * slotCount [⟨0, 1, 2⟩] i) ∧
      (∀ i < [(⟨0, 0, 0⟩ : Vec3), ⟨1, 0, 0⟩, ⟨0, 1, 0⟩].length, ∃ s,
        sumFaceVecs fv (adjSpec [⟨0, 1, 2⟩] i) Vec3.zero = some s ∧
        out[i]? = some (Vec3.normalize s)) :=
  vertexNormals_pointKeyed_amended
    [(⟨0, 0, 0⟩ : Vec3), ⟨1, 0, 0⟩, ⟨0, 1, 0⟩] [⟨0, 1, 2⟩]
    (by
      intro t ht
      simp only [List.mem_singleton] at ht
      subst ht
      exact ⟨by norm_num, by norm_num, by norm_num⟩)

/-- C3 counterexample: on four points with triangles (0,1,2) and
(1,3,2), the source's point-keyed `vertexNormals` gives vertex 0 the
normal z-component 0 (both its adjacency entries 1 and 2 were
overwritten by the second triangle's raw cross product (-1,-1,0)),
whereas the slot-keyed variant described by the claim gives z-component
1 (slots 1 and 2 hold the first triangle's cross product (0,0,1)); so
`vertexNormals` does not compute the slot-keyed description. -/
theorem vertexNormals_slotKeyed_counterexample :
    (vertexNormals [(⟨0, 0, 0⟩ : Vec3), ⟨1, 0, 0⟩, ⟨0, 1, 0⟩, ⟨1, 0, 1⟩]
        [⟨0, 1, 2⟩, ⟨1, 3, 2⟩]).map (fun l => (l.getD 0 Vec3.zero).z) =
      some 0 ∧
    (vertexNormalsSlotKeyed
        [(⟨0, 0, 0⟩ : Vec3), ⟨1, 0, 0⟩, ⟨0, 1, 0⟩, ⟨1, 0, 1⟩]
        [⟨0, 1, 2⟩, ⟨1, 3, 2⟩]).map (fun l => (l.getD 0 Vec3.zero).z) =
      some 1 ∧
    vertexNormals [(⟨0, 0, 0⟩ : Vec3), ⟨1, 0, 0⟩, ⟨0, 1, 0⟩, ⟨1, 0, 1⟩]
        [⟨0, 1, 2⟩, ⟨1, 3, 2⟩] ≠
      vertexNormalsSlotKeyed
        [(⟨0, 0, 0⟩ : Vec3), ⟨1, 0, 0⟩, ⟨0, 1, 0⟩, ⟨1, 0, 1⟩]
        [⟨0, 1, 2⟩, ⟨1, 3, 2⟩] := by
  have hvalid : ∀ t ∈ [(⟨0, 1, 2⟩ : Tri), ⟨1, 3, 2⟩],
      t.a < [(⟨0, 0, 0⟩ : Vec3), ⟨1, 0, 0⟩, ⟨0, 1, 0⟩, ⟨1, 0, 1⟩].length ∧
      t.b < [(⟨0, 0, 0⟩ : Vec3), ⟨1, 0, 0⟩, ⟨0, 1, 0⟩, ⟨1, 0, 1⟩].length ∧
      t.c < [(⟨0, 0, 0⟩ : Vec3), ⟨1, 0, 0⟩, ⟨0, 1, 0⟩, ⟨1, 0, 1⟩].length := by
    intro t ht
    simp only [List.mem_cons, List.mem_singleton, List.not_mem_nil,
      or_false] at ht
    rcases ht with rfl | rfl
    · exact ⟨by norm_num, by norm_num, by norm_num⟩
    · exact ⟨by norm_num, by norm_num, by norm_num⟩
  have hadjspec : adjSpec [(⟨0, 1, 2⟩ : Tri), ⟨1, 3, 2⟩] 0 = [1, 2] := rfl
  have h1 : (vertexNormals
      [(⟨0, 0, 0⟩ : Vec3), ⟨1, 0, 0⟩, ⟨0, 1, 0⟩, ⟨1, 0, 1⟩]
      [⟨0, 1, 2⟩, ⟨1, 3, 2⟩]).map (fun l => (l.getD 0 Vec3.zero).z) =
      some 0 := by
    obtain ⟨adj, fv, hadj, hfv, hfvlen, hadjget, out, hout, houtlen, hres⟩ :=
      vertexNormals_eval
        [(⟨0, 0, 0⟩ : Vec3), ⟨1, 0, 0⟩, ⟨0, 1, 0⟩, ⟨1, 0, 1⟩]
        [⟨0, 1, 2⟩, ⟨1, 3, 2⟩] hvalid
    have hfv2 : faceVectors
        [(⟨0, 0, 0⟩ : Vec3), ⟨1, 0, 0⟩, ⟨0, 1, 0⟩, ⟨1, 0, 1⟩]
        [⟨0, 1, 2⟩, ⟨1, 3, 2⟩] =
        some [some ⟨0, 0, 1⟩, some ⟨-1, -1, 0⟩, some ⟨-1, -1, 0⟩,
          some ⟨-1, -1, 0⟩] := by
      norm_num [faceVectors, faceVectorsStep, List.foldlM_cons,
        List.foldlM_nil, Vec3.cross, Vec3.sub, Vec3.mk.injEq,
        List.replicate_succ, List.set_cons_zero, List.set_cons_succ]
    rw [hfv] at hfv2
    have hfveq := Option.some.inj hfv2
    subst hfveq
    obtain ⟨s, hs, hout0⟩ := hres 0 (by norm_num)
    rw [hadjspec] at hs
    have hs2 : sumFaceVecs [some (⟨0, 0, 1⟩ : Vec3), some ⟨-1, -1, 0⟩,
        some ⟨-1, -1, 0⟩, some ⟨-1, -1, 0⟩] [1, 2] Vec3.zero =
        some ⟨-2, -2, 0⟩ := by
      norm_num [sumFaceVecs, Vec3.add, Vec3.zero, Vec3.mk.injEq]
    rw [hs] at hs2
    have hseq := Option.some.inj hs2
    subst hseq
    rw [hout, Option.map_some']
    have hgd : out.getD 0 Vec3.zero = Vec3.normalize ⟨-2, -2, 0⟩ := by
      rw [List.getD_eq_getElem?_getD, hout0]
      rfl
    rw [hgd, Vec3.normalize,
      if_pos (by norm_num [Vec3.dot] :
        (0 : ℝ) < Vec3.dot ⟨-2, -2, 0⟩ ⟨-2, -2, 0⟩)]
    norm_num
  have h2 : (vertexNormalsSlotKeyed
      [(⟨0, 0, 0⟩ : Vec3), ⟨1, 0, 0⟩, ⟨0, 1, 0⟩, ⟨1, 0, 1⟩]
      [⟨0, 1, 2⟩, ⟨1, 3, 2⟩]).map (fun l => (l.getD 0 Vec3.zero).z) =
      some 1 := by
    have hslot : slotFaceVectors
        [(⟨0, 0, 0⟩ : Vec3), ⟨1, 0, 0⟩, ⟨0, 1, 0⟩, ⟨1, 0, 1⟩]
        [⟨0, 1, 2⟩, ⟨1, 3, 2⟩] =
        [⟨0, 0, 1⟩, ⟨0, 0, 1⟩, ⟨0, 0, 1⟩, ⟨-1, -1, 0⟩, ⟨-1, -1, 0⟩,
          ⟨-1, -1, 0⟩] := by
      norm_num [slotFaceVectors, faceVectorOf, Vec3.cross, Vec3.sub,
        Vec3.zero, List.getD_cons_zero, List.getD_cons_succ, Vec3.mk.injEq]
    have hentries : ∀ i <
        [(⟨0, 0, 0⟩ : Vec3), ⟨1, 0, 0⟩, ⟨0, 1, 0⟩, ⟨1, 0, 1⟩].length,
        ∀ e ∈ adjSpec [(⟨0, 1, 2⟩ : Tri), ⟨1, 3, 2⟩] i,
        e < (slotFaceVectors
          [(⟨0, 0, 0⟩ : Vec3), ⟨1, 0, 0⟩, ⟨0, 1, 0⟩, ⟨1, 0, 1⟩]
          [⟨0, 1, 2⟩, ⟨1, 3, 2⟩]).length := by
      rw [hslot]
      intro i hi
      simp only [List.length_cons, List.length_nil] at hi ⊢
      interval_cases i <;> decide
    obtain ⟨outS, houtS, houtSlen, hresS⟩ := vertexNormalsSlotKeyed_eval
      [(⟨0, 0, 0⟩ : Vec3), ⟨1, 0, 0⟩, ⟨0, 1, 0⟩, ⟨1, 0, 1⟩]
      [⟨0, 1, 2⟩, ⟨1, 3, 2⟩] hvalid hentries
    obtain ⟨s0, hs0, houtS0⟩ := hresS 0 (by norm_num)
    rw [hadjspec, hslot] at hs0
    have hs02 : sumVecs [(⟨0, 0, 1⟩ : Vec3), ⟨0, 0, 1⟩, ⟨0, 0, 1⟩,
        ⟨-1, -1, 0⟩, ⟨-1, -1, 0⟩, ⟨-1, -1, 0⟩] [1, 2] Vec3.zero =
        some ⟨0, 0, 2⟩ := by
      norm_num [sumVecs, Vec3.add, Vec3.zero, Vec3.mk.injEq]
    rw [hs0] at hs02
    have hseq := Option.some.inj hs02
    subst hseq
    rw [houtS, Option.map_some']
    have hgd : outS.getD 0 Vec3.zero = Vec3.normalize ⟨0, 0, 2⟩ := by
      rw [List.getD_eq_getElem?_getD, houtS0]
      rfl
    have hsq : Real.sqrt 4 = 2 := by
      rw [show (4 : ℝ) = 2 ^ 2 by norm_num]
      exact Real.sqrt_sq (by norm_num)
    rw [hgd, Vec3.normalize,
      if_pos (by norm_num [Vec3.dot] :
        (0 : ℝ) < Vec3.dot ⟨0, 0, 2⟩ ⟨0, 0, 2⟩)]
    norm_num [Vec3.dot, hsq]
  refine ⟨h1, h2, fun heq => ?_⟩
  rw [heq, h2] at h1
  exact absurd (Option.some.inj h1) (by norm_num)

/-- C5: every value produced by `surfaceOrientation` is one of the 8
levels k/7, k = 0..7; the scalar at output slot i is the deterministic
bin `orientScalar` of the normal's components at flat positions 3i and
3i+1 (normalize the 2-D vector, θ = atan2 wrapped into [0, 2π),
region = floor(θ / (2π/8)), divided by 7); hence equal normal components
always yield the same bin. -/
theorem surfaceOrientation_binned :
    (∀ (norms : List ℝ) (s : ℝ), s ∈ surfaceOrientation norms →
      ∃ k : ℕ, k ≤ 7 ∧ s = (k : ℝ) / 7) ∧
    (∀ (norms : List ℝ) (i : ℕ), 3 * i + 2 < norms.length →
      (surfaceOrientation norms)[i]? =
        some (orientScalar (norms.getD (3 * i) 0)
          (norms.getD (3 * i + 1) 0))) ∧
    (∀ (norms : List ℝ) (i j : ℕ), 3 * i + 2 < norms.length →
      3 * j + 2 < norms.length →
      norms.getD (3 * i) 0 = norms.getD (3 * j) 0 →
      norms.getD (3 * i + 1) 0 = norms.getD (3 * j + 1) 0 →
      (surfaceOrientation norms)[i]? = (surfaceOrientation norms)[j]?) := by
  refine ⟨?_, ?_, ?_⟩
  · intro norms s hs
    obtain ⟨x, y, rfl⟩ := surfaceOrientation_mem norms s hs
    exact orientScalar_levels x y
  · exact fun norms i h => surfaceOrientation_getElem? i norms h
  · intro norms i j hi hj hx hy
    rw [surfaceOrientation_getElem? i norms hi,
      surfaceOrientation_getElem? j norms hj, hx, hy]

/-- C5 witness: the theorem applied to concrete normal arrays: the bin
of the normal (1, 0, 0) is one of the 8 levels, and two slots holding
the same normal produce the same scalar. -/
theorem surfaceOrientation_binned_witness :
    (∃ k : ℕ, k ≤ 7 ∧ orientScalar 1 0 = (k : ℝ) / 7) ∧
    (surfaceOrientation [1, 0, 0, 1, 0, 0])[0]? =
      (surfaceOrientation [1, 0, 0, 1, 0, 0])[1]? := by
  constructor
  · exact surfaceOrientation_binned.1 [(1 : ℝ), 0, 0] (orientScalar 1 0)
      (by simp [surfaceOrientation])
  · exact surfaceOrientation_binned.2.2 [1, 0, 0, 1, 0, 0] 0 1
      (by norm_num) (by norm_num) (by rfl) (by rfl)

/-- C2: on equal-length unwrapped point and normal arrays describing T
triangles whose first fundamental forms are invertible, the scalars of
`surfaceVariation` are exactly: per triangle the energy
e = trace(G⁻¹·H) (Mathlib matrix inverse and trace), clamped at 1000
when above 1000; each clamped energy divided by the maximum clamped
value M over all triangles and passed through the curve
e' = 1 - exp(2.99572315 - 15·e)/20; three equal scalars pushed per
triangle. -/
theorem surfaceVariation_dirichlet (verts vNorms : List ℝ) (T : ℕ)
    (_hT : 0 < T) (_hv : verts.length = 9 * T)
    (_hn : vNorms.length = 9 * T)
    (hdet : ∀ c ∈ svChunks verts vNorms,
      Vec3.dot c.1.1 c.1.1 * Vec3.dot c.1.2 c.1.2 -
        Vec3.dot c.1.1 c.1.2 * Vec3.dot c.1.1 c.1.2 ≠ 0) :
    surfaceVariation verts vNorms =
      (specClampedEnergies verts vNorms).flatMap (fun e =>
        [specCurve (e / listMax (specClampedEnergies verts vNorms)),
         specCurve (e / listMax (specClampedEnergies verts vNorms)),
         specCurve (e / listMax (specClampedEnergies verts vNorms))]) := by
  have key : svTraces verts vNorms = specClampedEnergies verts vNorms := by
    rw [svTraces, specClampedEnergies]
    refine List.map_congr_left ?_
    intro c hc
    exact congrArg clampTrace
      (triTrace_eq_specEnergy c.1.1 c.1.2 c.2.1 c.2.2 (hdet c hc))
  rw [surfaceVariation, key, map_flatMap_triple]
  rfl

/-- C2 witness: the theorem applied to one nondegenerate triangle
(the unit right triangle) with three pairwise different normals. -/
theorem surfaceVariation_dirichlet_witness :
    surfaceVariation [0, 0, 0, 1, 0, 0, 0, 1, 0]
        [0, 0, 1, 1, 0, 0, 0, 1, 0] =
      (specClampedEnergies [0, 0, 0, 1, 0, 0, 0, 1, 0]
          [0, 0, 1, 1, 0, 0, 0, 1, 0]).flatMap (fun e =>
        [specCurve (e / listMax (specClampedEnergies
            [0, 0, 0, 1, 0, 0, 0, 1, 0] [0, 0, 1, 1, 0, 0, 0, 1, 0])),
         specCurve (e / listMax (specClampedEnergies
            [0, 0, 0, 1, 0, 0, 0, 1, 0] [0, 0, 1, 1, 0, 0, 0, 1, 0])),
         specCurve (e / listMax (specClampedEnergies
            [0, 0, 0, 1, 0, 0, 0, 1, 0] [0, 0, 1, 1, 0, 0, 0, 1, 0]))]) :=
  surfaceVariation_dirichlet [0, 0, 0, 1, 0, 0, 0, 1, 0]
    [0, 0, 1, 1, 0, 0, 0, 1, 0] 1 (by norm_num) (by norm_num) (by norm_num)
    (by
      intro c hc
      simp only [svChunks, List.mem_singleton] at hc
      subst hc
      norm_num [Vec3.dot])

/-- C8: the unwrapped array has 3 entries per triangle; `faceNormals`
and `vertexNormals` outputs (with in-range indices) have the point-list
length; `surfaceVariation` on flat arrays of length 9T outputs 3T
scalars (one per unwrapped vertex slot, three per triangle), and so does
`surfaceOrientation`. -/
theorem pipeline_lengths :
    (∀ {α : Type} (v : List α) (inds : List Tri),
      (unwrapArray v inds).length = 3 * inds.length) ∧
    (∀ (verts : List Vec3) (ind : List Tri),
      (∀ t ∈ ind,
        t.a < verts.length ∧ t.b < verts.length ∧ t.c < verts.length) →
      ∃ out, faceNormals verts ind = some out ∧
        out.length = verts.length) ∧
    (∀ (verts : List Vec3) (ind : List Tri),
      (∀ t ∈ ind,
        t.a < verts.length ∧ t.b < verts.length ∧ t.c < verts.length) →
      ∃ out, vertexNormals verts ind = some out ∧
        out.length = verts.length) ∧
    (∀ (verts vNorms : List ℝ) (T : ℕ), verts.length = 9 * T →
      vNorms.length = 9 * T →
      (surfaceVariation verts vNorms).length = 3 * T) ∧
    (∀ (norms : List ℝ) (T : ℕ), norms.length = 9 * T →
      (surfaceOrientation norms).length = 3 * T) := by
  refine ⟨?_, ?_, ?_, ?_, ?_⟩
  · intro α v inds
    exact unwrapArray_length v inds
  · intro verts ind hvalid
    obtain ⟨out, h1, h2, _, _, _⟩ := faceNormals_fold verts ind hvalid
    exact ⟨out, h1, h2⟩
  · intro verts ind hvalid
    obtain ⟨_, _, _, _, _, _, out, hout, houtlen, _⟩ :=
      vertexNormals_eval verts ind hvalid
    exact ⟨out, hout, houtlen⟩
  · intro verts vNorms T hv hn
    rw [surfaceVariation, List.length_map, flatMap_triple_length,
      svTraces, List.length_map, svChunks_length T verts vNorms hv hn]
  · intro norms T hn
    exact surfaceOrientation_length (3 * T) norms (by omega)

/-- C8 witness: the length invariants applied to concrete inputs: one
triangle over one scalar value, the unit right triangle's point set, and
flat arrays of nine entries. -/
theorem pipeline_lengths_witness :
    (unwrapArray [(5 : ℝ)] [⟨0, 0, 0⟩]).length =
      3 * [(⟨0, 0, 0⟩ : Tri)].length ∧
    (∃ out, faceNormals [(⟨0, 0, 0⟩ : Vec3), ⟨1, 0, 0⟩, ⟨0, 1, 0⟩]
        [⟨0, 1, 2⟩] = some out ∧
      out.length = [(⟨0, 0, 0⟩ : Vec3), ⟨1, 0, 0⟩, ⟨0, 1, 0⟩].length) ∧
    (∃ out, vertexNormals [(⟨0, 0, 0⟩ : Vec3), ⟨1, 0, 0⟩, ⟨0, 1, 0⟩]
        [⟨0, 1, 2⟩] = some out ∧
      out.length = [(⟨0, 0, 0⟩ : Vec3), ⟨1, 0, 0⟩, ⟨0, 1, 0⟩].length) ∧
    (surfaceVariation [0, 0, 0, 1, 0, 0, 0, 1, 0]
        [0, 0, 1, 1, 0, 0, 0, 1, 0]).length = 3 * 1 ∧
    (surfaceOrientation [0, 0, 1, 1, 0, 0, 0, 1, 0]).length = 3 * 1 := by
  have hvalid : ∀ t ∈ [(⟨0, 1, 2⟩ : Tri)],
      t.a < [(⟨0, 0, 0⟩ : Vec3), ⟨1, 0, 0⟩, ⟨0, 1, 0⟩].length ∧
      t.b < [(⟨0, 0, 0⟩ : Vec3), ⟨1, 0, 0⟩, ⟨0, 1, 0⟩].length ∧
      t.c < [(⟨0, 0, 0⟩ : Vec3), ⟨1, 0, 0⟩, ⟨0, 1, 0⟩].length := by
    intro t ht
    simp only [List.mem_singleton] at ht
    subst ht
    exact ⟨by norm_num, by norm_num, by norm_num⟩
  exact ⟨pipeline_lengths.1 [(5 : ℝ)] [⟨0, 0, 0⟩],
    pipeline_lengths.2.1 _ _ hvalid,
    pipeline_lengths.2.2.1 _ _ hvalid,
    pipeline_lengths.2.2.2.1 _ _ 1 (by norm_num) (by norm_num),
    pipeline_lengths.2.2.2.2 _ 1 (by norm_num)⟩

/-- C6: after `centerPointCloud`, the recomputed centroid of the mutated
point set is exactly the origin (the real-number idealization of
"within floating-point tolerance of (0,0,0)"). -/
theorem centerPointCloud_centroid (points : List Vec3) (h : points ≠ []) :
    centerOfVolume (centerPointCloud points) = Vec3.zero := by
  have hn : (points.length : ℝ) ≠ 0 := by
    simpa using h
  have hx := centerOfVolume_comp points Vec3.x
    ((points.map Vec3.x).sum / (points.length : ℝ)) h
  have hy := centerOfVolume_comp points Vec3.y
    ((points.map Vec3.y).sum / (points.length : ℝ)) h
  have hz := centerOfVolume_comp points Vec3.z
    ((points.map Vec3.z).sum / (points.length : ℝ)) h
  simp only [centerPointCloud, centerOfVolume, Vec3.sub, Vec3.zero,
    List.map_map, List.length_map, Function.comp_def, Vec3.mk.injEq]
  refine ⟨?_, ?_, ?_⟩
  · simpa using hx
  · simpa using hy
  · simpa using hz

/-- C6 witness: the theorem applied to the concrete one-point cloud
`[(1, 2, 3)]`. -/
theorem centerPointCloud_centroid_witness :
    centerOfVolume (centerPointCloud [(⟨1, 2, 3⟩ : Vec3)]) = Vec3.zero :=
  centerPointCloud_centroid [(⟨1, 2, 3⟩ : Vec3)] (by simp)

/-- C1: on the concrete point set [(2,2,2), (4,4,4)] the per-axis extrema
are 2 and 4, yet the center stored by `getAabb` is (4,4,4) rather than
((2+4)/2, (2+4)/2, (2+4)/2) = (3,3,3): the source computes
`min + max / 2`, not `(min + max) / 2`. -/
theorem getAabb_center_defect :
    (getAabb [⟨2, 2, 2⟩, ⟨4, 4, 4⟩]).min = (⟨2, 2, 2⟩ : Vec3) ∧
    (getAabb [⟨2, 2, 2⟩, ⟨4, 4, 4⟩]).max = (⟨4, 4, 4⟩ : Vec3) ∧
    (getAabb [⟨2, 2, 2⟩, ⟨4, 4, 4⟩]).center = (⟨4, 4, 4⟩ : Vec3) ∧
    (getAabb [⟨2, 2, 2⟩, ⟨4, 4, 4⟩]).center ≠
      (⟨(2 + 4) / 2, (2 + 4) / 2, (2 + 4) / 2⟩ : Vec3) := by
  norm_num [getAabb, listMin, listMax, Vec3.mk.injEq]

/-- C7: with in-range indices, the unwrap operations append, for each
triangle in order, the array's value at each of the triangle's three
indices; in particular `unwrapVectorArray` on the single triangle (0,1,2)
over three points returns exactly the nine coordinates of the three
points concatenated in index order. -/
theorem unwrap_appends :
    (∀ (v : List Vec3) (inds : List Tri),
      (∀ t ∈ inds, t.a < v.length ∧ t.b < v.length ∧ t.c < v.length) →
      unwrapVectorArray v inds = some (inds.flatMap (fun t =>
        flat3 (v.getD t.a Vec3.zero) ++ flat3 (v.getD t.b Vec3.zero) ++
          flat3 (v.getD t.c Vec3.zero)))) ∧
    (∀ {α : Type} (v : List α) (inds : List Tri) (d : α),
      (∀ t ∈ inds, t.a < v.length ∧ t.b < v.length ∧ t.c < v.length) →
      unwrapArray v inds = (inds.flatMap (fun t =>
        [v.getD t.a d, v.getD t.b d, v.getD t.c d])).map some) ∧
    (∀ p0 p1 p2 : Vec3,
      unwrapVectorArray [p0, p1, p2] [⟨0, 1, 2⟩] =
        some [p0.x, p0.y, p0.z, p1.x, p1.y, p1.z, p2.x, p2.y, p2.z]) := by
  refine ⟨?_, ?_, ?_⟩
  · intro v inds h
    induction inds with
    | nil => simp [unwrapVectorArray]
    | cons t rest ih =>
      have ht := h t (List.mem_cons_self t rest)
      have hrest := ih fun s hs => h s (List.mem_cons_of_mem t hs)
      rw [unwrapVectorArray,
        getElem?_eq_some_getD v t.a Vec3.zero ht.1,
        getElem?_eq_some_getD v t.b Vec3.zero ht.2.1,
        getElem?_eq_some_getD v t.c Vec3.zero ht.2.2]
      simp [hrest, flat3]
  · intro α v inds d h
    induction inds with
    | nil => simp [unwrapArray]
    | cons t rest ih =>
      have ht := h t (List.mem_cons_self t rest)
      have hrest := ih fun s hs => h s (List.mem_cons_of_mem t hs)
      rw [unwrapArray,
        getElem?_eq_some_getD v t.a d ht.1,
        getElem?_eq_some_getD v t.b d ht.2.1,
        getElem?_eq_some_getD v t.c d ht.2.2]
      simp [hrest]
  · intro p0 p1 p2
    simp [unwrapVectorArray, flat3]

/-- C7 witness: the unwrap theorems applied to concrete inputs, including
the single-triangle instance over three concrete points. -/
theorem unwrap_appends_witness :
    unwrapVectorArray [(⟨1, 2, 3⟩ : Vec3)] [⟨0, 0, 0⟩] =
      some [1, 2, 3, 1, 2, 3, 1, 2, 3] ∧
    unwrapArray [(5 : ℝ), 6, 7] [⟨2, 0, 1⟩] = [some 7, some 5, some 6] ∧
    unwrapVectorArray [(⟨1, 0, 0⟩ : Vec3), ⟨0, 1, 0⟩, ⟨0, 0, 1⟩]
      [⟨0, 1, 2⟩] = some [1, 0, 0, 0, 1, 0, 0, 0, 1] := by
  refine ⟨?_, ?_, ?_⟩
  · have h := unwrap_appends.1 [(⟨1, 2, 3⟩ : Vec3)] [⟨0, 0, 0⟩] (by simp)
    simpa [flat3] using h
  · have h := unwrap_appends.2.1 [(5 : ℝ), 6, 7] [⟨2, 0, 1⟩] 0 (by simp)
    simpa using h
  · have h := unwrap_appends.2.2 (⟨1, 0, 0⟩ : Vec3) ⟨0, 1, 0⟩ ⟨0, 0, 1⟩
    simpa using h

end

end Morphoviewer
